import Mathlib

set_option maxHeartbeats 1000000

namespace AgentsToolkit

/-- Roles an agent can have, from the AgentRole enum of AgentsController.sol. -/
inductive AgentRole
  | agent
  | chat
deriving DecidableEq, Repr

/-- The Agent struct of AgentsController.sol. -/
structure Agent where
  id : Nat
  name : String
  role : AgentRole
  ipfsHash : String
  trustScore : Nat
  totalInteractions : Nat
  positiveRatings : Nat
deriving DecidableEq, Repr

/-- The Solidity zero value of the Agent struct (mapping default). -/
instance : Inhabited Agent := ⟨⟨0, "", AgentRole.agent, "", 0, 0, 0⟩⟩

/-- Events emitted by AgentsController.sol. -/
inductive CEvent
  | agentRegistered (agentId : Nat) (agentAddress : Nat) (name : String) (role : String)
      (ipfsHash : String)
  | messageSent (messageId : Nat) (senderAgentId : Nat) (receiverAgentId : Nat) (message : String)
  | messageResponded (messageId : Nat) (senderAgentId : Nat) (receiverAgentId : Nat)
      (response : String)
  | agentRated (agentId : Nat) (raterAgentId : Nat) (positive : Bool) (comment : String)
  | agentUpdated (agentId : Nat) (name : String) (role : String) (ipfsHash : String)
  | trustScoreUpdated (agentId : Nat) (newTrustScore : Nat) (totalInteractions : Nat)
deriving DecidableEq, Repr

/-- Revert reasons of AgentsController.sol. -/
inductive Rerr
  | raterNotRegistered
  | agentNotFound
  | recvAgentNotFound
  | cannotRateSelf
  | alreadyRated
  | noRatingExists
deriving DecidableEq, Repr

/-- Contract storage of AgentsController.sol. Solidity mappings are total
functions returning the zero value on unset keys; addresses are modelled as
natural numbers. The emitted event log is carried alongside the storage. -/
structure AState where
  agents : Nat → Agent
  agentIds : Nat → Nat
  hasRated : Nat → Nat → Bool
  ratingValue : Nat → Nat → Bool
  nextId : Nat
  messageIdCounter : Nat
  events : List CEvent

/-- Storage of a freshly deployed AgentsController: all mappings hold the
Solidity zero value and both counters are zero. -/
def initState : AState where
  agents := fun _ => default
  agentIds := fun _ => 0
  hasRated := fun _ _ => false
  ratingValue := fun _ _ => false
  nextId := 0
  messageIdCounter := 0
  events := []

/-- registerAgent of AgentsController.sol: assigns agentId = nextId++, stores
the new Agent with trust score 100 and zero counters, rebinds the caller
address, emits AgentRegistered, and returns the new id. -/
def registerAgent (sender : Nat) (nm : String) (role : AgentRole) (ipfsHash : String)
    (s : AState) : Nat × AState :=
  let agentId := s.nextId
  let roleString := if role = AgentRole.agent then "Agent" else "Chat"
  (agentId,
    { s with
      agents := fun k => if k = agentId then ⟨agentId, nm, role, ipfsHash, 100, 0, 0⟩
        else s.agents k
      agentIds := fun a => if a = sender then agentId else s.agentIds a
      nextId := s.nextId + 1
      events := s.events ++ [CEvent.agentRegistered agentId sender nm roleString ipfsHash] })

/-- listAgents of AgentsController.sol: agents[0], ..., agents[nextId - 1]. -/
def listAgents (s : AState) : List Agent :=
  (List.range s.nextId).map s.agents

/-- countAgents of AgentsController.sol. -/
def countAgents (s : AState) : Nat :=
  s.nextId

/-- sendMessageToAgent of AgentsController.sol: requires nextId > agentId,
resolves the sender id from the agentIds mapping (zero default), assigns
messageId = messageIdCounter++ and emits MessageSent. A failed require
reverts, leaving the storage unchanged (the error branch carries no state). -/
def sendMessageToAgent (sender : Nat) (agentId : Nat) (message : String) (s : AState) :
    Except Rerr (Unit × AState) :=
  if s.nextId > agentId then
    let senderAgentId := s.agentIds sender
    let messageId := s.messageIdCounter
    Except.ok ((),
      { s with
        messageIdCounter := s.messageIdCounter + 1
        events := s.events ++ [CEvent.messageSent messageId senderAgentId agentId message] })
  else Except.error Rerr.agentNotFound

/-- respondToAgent of AgentsController.sol: requires nextId > receiverAgentId,
resolves the responder id from the agentIds mapping and emits
MessageResponded. -/
def respondToAgent (sender : Nat) (messageId : Nat) (receiverAgentId : Nat) (response : String)
    (s : AState) : Except Rerr (Unit × AState) :=
  if s.nextId > receiverAgentId then
    let responderAgentId := s.agentIds sender
    Except.ok ((),
      { s with
        events := s.events ++
          [CEvent.messageResponded messageId responderAgentId receiverAgentId response] })
  else Except.error Rerr.recvAgentNotFound

/-- rateAgent of AgentsController.sol, with its four require checks in source
order: RATER_NOT_REGISTERED when the resolved rater id is zero,
AGENT_NOT_FOUND when the target id was never assigned, CANNOT_RATE_SELF,
ALREADY_RATED; then it stores the rating, bumps the interaction counters and
recomputes the trust score with integer division. -/
def rateAgent (sender : Nat) (agentId : Nat) (positive : Bool) (comment : String)
    (s : AState) : Except Rerr (Unit × AState) :=
  let raterAgentId := s.agentIds sender
  if raterAgentId = 0 then Except.error Rerr.raterNotRegistered
  else if ¬ agentId < s.nextId then Except.error Rerr.agentNotFound
  else if raterAgentId = agentId then Except.error Rerr.cannotRateSelf
  else if s.hasRated agentId raterAgentId then Except.error Rerr.alreadyRated
  else
    let oldAgent := s.agents agentId
    let newTotal := oldAgent.totalInteractions + 1
    let newPositive := oldAgent.positiveRatings + (if positive then 1 else 0)
    let newTrustScore := newPositive * 100 / newTotal
    Except.ok ((),
      { s with
        hasRated := fun a r => if a = agentId ∧ r = raterAgentId then true else s.hasRated a r
        ratingValue := fun a r =>
          if a = agentId ∧ r = raterAgentId then positive else s.ratingValue a r
        agents := fun k => if k = agentId then
            { oldAgent with
              trustScore := newTrustScore
              totalInteractions := newTotal
              positiveRatings := newPositive }
          else s.agents k
        events := s.events ++
          [CEvent.agentRated agentId raterAgentId positive comment,
           CEvent.trustScoreUpdated agentId newTrustScore newTotal] })

/-- The storage after a rateAgent call: the new storage on success, the
unchanged storage on revert. -/
def rateCall (sender : Nat) (agentId : Nat) (positive : Bool) (comment : String)
    (s : AState) : AState :=
  match rateAgent sender agentId positive comment s with
  | Except.ok (_, s2) => s2
  | Except.error _ => s

/-- getAgentReputation of AgentsController.sol. -/
def getAgentReputation (agentId : Nat) (s : AState) : Except Rerr (Nat × Nat × Nat) :=
  if agentId < s.nextId then
    let a := s.agents agentId
    Except.ok (a.trustScore, a.totalInteractions, a.positiveRatings)
  else Except.error Rerr.agentNotFound

/-- hasAgentRated of AgentsController.sol: a bare mapping read, no require. -/
def hasAgentRated (agentId : Nat) (raterAgentId : Nat) (s : AState) : Bool :=
  s.hasRated agentId raterAgentId

/-- getRating of AgentsController.sol. -/
def getRating (agentId : Nat) (raterAgentId : Nat) (s : AState) : Except Rerr Bool :=
  if s.hasRated agentId raterAgentId then Except.ok (s.ratingValue agentId raterAgentId)
  else Except.error Rerr.noRatingExists

/-- States reachable from a fresh deployment by any sequence of calls.
Reverted calls leave the storage unchanged, so only successful calls appear
as transitions. -/
inductive Reachable : AState → Prop
  | init : Reachable initState
  | register (s : AState) (sender : Nat) (nm : String) (role : AgentRole) (ipfsHash : String) :
      Reachable s → Reachable (registerAgent sender nm role ipfsHash s).2
  | send (s s2 : AState) (sender agentId : Nat) (message : String) :
      Reachable s → sendMessageToAgent sender agentId message s = Except.ok ((), s2) →
      Reachable s2
  | respond (s s2 : AState) (sender messageId receiverAgentId : Nat) (response : String) :
      Reachable s → respondToAgent sender messageId receiverAgentId response s =
        Except.ok ((), s2) → Reachable s2
  | rate (s s2 : AState) (sender agentId : Nat) (positive : Bool) (comment : String) :
      Reachable s → rateAgent sender agentId positive comment s = Except.ok ((), s2) →
      Reachable s2

/-- Invariants maintained by every AgentsController call: counter and trust
score relations for every assigned agent id, the domain of stored ratings,
the correspondence between stored ratings and AgentRated events, and the
zero default of the identity binding map. -/
def ContractInv (s : AState) : Prop :=
  (∀ aid, aid < s.nextId →
    (s.agents aid).positiveRatings ≤ (s.agents aid).totalInteractions ∧
    ((s.agents aid).totalInteractions = 0 → (s.agents aid).trustScore = 100) ∧
    (0 < (s.agents aid).totalInteractions →
      (s.agents aid).trustScore =
        (s.agents aid).positiveRatings * 100 / (s.agents aid).totalInteractions)) ∧
  (∀ a r, s.hasRated a r = true → r ≠ 0 ∧ a < s.nextId ∧ r ≠ a) ∧
  (∀ a r, s.hasRated a r = true ↔
    ∃ positive comment, CEvent.agentRated a r positive comment ∈ s.events) ∧
  (∀ sender, (∀ aid nm rl ih, CEvent.agentRegistered aid sender nm rl ih ∉ s.events) →
    s.agentIds sender = 0)

/-- One comparison of the sorting double loop in getTopRatedAgents: when the
trust score at position i is strictly below the one at position j the two
entries are swapped (the swap writes position i, then position j). -/
def innerStep (i : Nat) (l : List Agent) (j : Nat) : List Agent :=
  if (l.getD i default).trustScore < (l.getD j default).trustScore then
    (l.set i (l.getD j default)).set j (l.getD i default)
  else l

/-- The sorting double loop of getTopRatedAgents: for i in [0, n), for j in
[i + 1, n), compare and swap. -/
def topSort (n : Nat) (l : List Agent) : List Agent :=
  (List.range n).foldl
    (fun acc i => (List.range' (i + 1) (n - (i + 1))).foldl (innerStep i) acc) l

/-- getTopRatedAgents of AgentsController.sol: copies agents[0..nextId) into
an array and sorts it in place by descending trust score with the double
loop above. -/
def getTopRatedAgents (s : AState) : List Agent :=
  topSort s.nextId ((List.range s.nextId).map s.agents)

/-- Every position before k dominates everything after it: the trust score
at any position p below k is at least the trust score of every later entry. -/
def HeadDom (k : Nat) (l : List Agent) : Prop :=
  ∀ p, p < k → ∀ x ∈ l.drop (p + 1), x.trustScore ≤ (l.getD p default).trustScore

/-- Three agents registered from three distinct addresses 10, 11, 12; their
ids are 0, 1 and 2. -/
def state3 : AState :=
  (registerAgent 12 "carol" AgentRole.agent ""
    ((registerAgent 11 "bob" AgentRole.agent ""
      ((registerAgent 10 "alice" AgentRole.agent "" initState).2)).2)).2

/-- state3 after agent 1 (address 11) rated agent 2 positively. -/
def state3r : AState := rateCall 11 2 true "good" state3

/-- state3 after agent 2 (address 12) rated agent 0 negatively. -/
def state3m : AState := rateCall 12 0 false "bad" state3

/-- state3m after agent 2 (address 12) also rated agent 1 negatively; agents
0 and 1 both end at trust score 0 while agent 2 keeps trust score 100. -/
def state3n : AState := rateCall 12 1 false "bad" state3m

/-- One agent registered from address 10; its id is 0. -/
def state1 : AState := (registerAgent 10 "alice" AgentRole.agent "" initState).2

namespace Monitor

/-- A ledger log entry as EventMonitor sees it: block number plus an
identifying payload. -/
structure MEv where
  blockNumber : Nat
  payload : Nat
deriving DecidableEq, Repr

/-- The substrate chain: the current block number and the committed log
entries. Committed entries are immutable; only the tip advances. -/
structure Chain where
  tip : Nat
  evs : List MEv
deriving DecidableEq, Repr

/-- provider.getLogs over an inclusive block range. -/
def logsInRange (c : Chain) (fromBlock toBlock : Nat) : List MEv :=
  c.evs.filter fun e => decide (fromBlock ≤ e.blockNumber ∧ e.blockNumber ≤ toBlock)

/-- The suspension points of one pollEvents invocation of EventMonitor:
freshly created by the interval callback, resumed from the getBlockNumber
await, resumed from the getLogs await. -/
inductive PollPhase
  | started
  | haveTip (currentBlock : Nat)
  | haveLogs (currentBlock : Nat) (logs : List MEv)
deriving DecidableEq, Repr

/-- The monitor world: the chain, the lastProcessedBlock cursor, the
in-flight pollEvents invocations with their resume points, and the log
entries delivered to subscribers, in delivery order. -/
structure MWorld where
  chain : Chain
  lastProcessedBlock : Nat
  tasks : List PollPhase
  delivered : List MEv
deriving DecidableEq, Repr

/-- The interval callback installed by startPolling: it invokes pollEvents
unconditionally, so a new invocation starts even when a previous one is
still in flight (startPolling keeps no in-flight flag and never inspects
the outstanding invocations). -/
def tickStep (w : MWorld) : MWorld :=
  { w with tasks := w.tasks ++ [PollPhase.started] }

/-- The substrate commits one new log entry in a fresh block at the tip. -/
def envStep (payload : Nat) (w : MWorld) : MWorld :=
  { w with chain :=
      { tip := w.chain.tip + 1, evs := w.chain.evs ++ [⟨w.chain.tip + 1, payload⟩] } }

/-- Resume the in-flight pollEvents invocation number k up to its next
suspension point, following the body of pollEvents: first read the current
block; then, if it does not exceed lastProcessedBlock, return, else getLogs
over [lastProcessedBlock + 1, currentBlock]; finally deliver every log in
order and set lastProcessedBlock to the current block. -/
def taskStep (k : Nat) (w : MWorld) : MWorld :=
  match w.tasks.get? k with
  | none => w
  | some PollPhase.started =>
      { w with tasks := w.tasks.set k (PollPhase.haveTip w.chain.tip) }
  | some (PollPhase.haveTip currentBlock) =>
      if currentBlock ≤ w.lastProcessedBlock then { w with tasks := w.tasks.eraseIdx k }
      else
        let logs := logsInRange w.chain (w.lastProcessedBlock + 1) currentBlock
        { w with tasks := w.tasks.set k (PollPhase.haveLogs currentBlock logs) }
  | some (PollPhase.haveLogs currentBlock logs) =>
      { w with
        tasks := w.tasks.eraseIdx k
        delivered := w.delivered ++ logs
        lastProcessedBlock := currentBlock }

/-- A scheduling choice: a timer tick, a substrate commit, or resuming one
in-flight pollEvents invocation. -/
inductive MChoice
  | tick
  | env (payload : Nat)
  | task (k : Nat)
deriving DecidableEq, Repr

/-- Apply one scheduling choice. -/
def mstep (w : MWorld) (c : MChoice) : MWorld :=
  match c with
  | MChoice.tick => tickStep w
  | MChoice.env p => envStep p w
  | MChoice.task k => taskStep k w

/-- Run a schedule from a world. -/
def mrun (cs : List MChoice) (w : MWorld) : MWorld := cs.foldl mstep w

/-- A monitor started at block 0 on an empty chain. -/
def mworld0 : MWorld := ⟨⟨0, []⟩, 0, [], []⟩

/-- A schedule in which the second timer tick fires while the first
pollEvents invocation is suspended at its getLogs await. -/
def overlapSchedule : List MChoice :=
  [MChoice.env 7, MChoice.tick, MChoice.task 0, MChoice.task 0,
   MChoice.tick, MChoice.task 1, MChoice.task 1,
   MChoice.task 0, MChoice.task 0]

/-- The prefix of the overlap schedule up to the second tick. -/
def overlapPrefix : List MChoice :=
  [MChoice.env 7, MChoice.tick, MChoice.task 0, MChoice.task 0, MChoice.tick]

/-- A serialized poll: one tick followed by the resulting pollEvents
invocation running to completion with no interleaved tick. -/
def serialSchedule : List MChoice :=
  [MChoice.tick, MChoice.task 0, MChoice.task 0, MChoice.task 0]

end Monitor

namespace Historical

/-- The decoded arguments of a MessageSent or MessageResponded log entry. -/
structure MsgArgs where
  messageId : Nat
  senderAgentId : Nat
  receiverAgentId : Nat
  body : String
deriving DecidableEq, Repr

/-- A parsed log entry of getHistoricalEvents, by event name. -/
inductive ParsedLog
  | agentRegistered (agentId : Nat)
  | messageSent (args : MsgArgs)
  | messageResponded (args : MsgArgs)
  | agentUpdated (agentId : Nat)
  | agentRated (agentId : Nat)
  | trustScoreUpdated (agentId : Nat)
deriving DecidableEq, Repr

/-- The EventFilterOptions fields used for filtering; an absent optional
field is none. -/
structure EventFilterOptions where
  agentId : Option Nat := none
  messageId : Option Nat := none
  senderAgentId : Option Nat := none
  receiverAgentId : Option Nat := none
deriving DecidableEq, Repr

/-- JavaScript truthiness of an optional numeric filter field: an absent
field and the number 0 are falsy, every other number is truthy. -/
def truthy (o : Option Nat) : Bool :=
  match o with
  | none => false
  | some n => n != 0

/-- matchesMessageFilter of EventMonitor: each guard runs only when the
filter field is truthy, and then rejects the entry when the log argument
differs from the filter value. -/
def matchesMessageFilter (args : MsgArgs) (options : EventFilterOptions) : Bool :=
  if truthy options.messageId && (args.messageId != options.messageId.getD 0) then false
  else if truthy options.senderAgentId &&
      (args.senderAgentId != options.senderAgentId.getD 0) then false
  else if truthy options.receiverAgentId &&
      (args.receiverAgentId != options.receiverAgentId.getD 0) then false
  else true

/-- The messageSent result list of getHistoricalEvents: the MessageSent
entries of the log that pass matchesMessageFilter, in log order. -/
def historicalMessageSent (logs : List ParsedLog) (options : EventFilterOptions) :
    List MsgArgs :=
  logs.filterMap fun l =>
    match l with
    | ParsedLog.messageSent a => if matchesMessageFilter a options then some a else none
    | _ => none

/-- The messageResponded result list of getHistoricalEvents: the
MessageResponded entries of the log that pass matchesMessageFilter. -/
def historicalMessageResponded (logs : List ParsedLog) (options : EventFilterOptions) :
    List MsgArgs :=
  logs.filterMap fun l =>
    match l with
    | ParsedLog.messageResponded a => if matchesMessageFilter a options then some a else none
    | _ => none

end Historical

/-- With at most t positive ratings out of t interactions the integer
percentage is at most 100. -/
theorem trust_div_le_100 (p t : Nat) (h : p ≤ t) (ht : 0 < t) : p * 100 / t ≤ 100 := by
  calc p * 100 / t ≤ t * 100 / t := Nat.div_le_div_right (by omega)
    _ = 100 := Nat.mul_div_cancel_left 100 ht

/-- The fresh deployment satisfies the contract invariants. -/
theorem initState_inv : ContractInv initState := by
  refine ⟨?_, ?_, ?_, ?_⟩
  · intro aid hlt; simp [initState] at hlt
  · intro a r hr; simp [initState] at hr
  · intro a r; simp [initState]
  · intro sender _; rfl

/-- registerAgent preserves the contract invariants. -/
theorem register_inv (s : AState) (sender : Nat) (nm : String) (role : AgentRole)
    (ipfs : String) (h : ContractInv s) :
    ContractInv (registerAgent sender nm role ipfs s).2 := by
  obtain ⟨h1, h2, h3, h4⟩ := h
  refine ⟨?_, ?_, ?_, ?_⟩
  · intro aid hlt
    dsimp only [registerAgent] at hlt ⊢
    by_cases hcase : aid = s.nextId
    · subst hcase
      rw [if_pos rfl]
      exact ⟨Nat.le_refl 0, fun _ => rfl, fun h0 => absurd h0 (Nat.lt_irrefl 0)⟩
    · rw [if_neg hcase]
      exact h1 aid (by omega)
  · intro a r hr
    dsimp only [registerAgent] at hr ⊢
    obtain ⟨x, y, z⟩ := h2 a r hr
    exact ⟨x, by omega, z⟩
  · intro a r
    dsimp only [registerAgent]
    rw [h3 a r]
    constructor
    · rintro ⟨p, c, hm⟩
      exact ⟨p, c, List.mem_append.mpr (Or.inl hm)⟩
    · rintro ⟨p, c, hm⟩
      rcases List.mem_append.mp hm with hm2 | hm2
      · exact ⟨p, c, hm2⟩
      · rcases List.mem_cons.mp hm2 with hm3 | hm3
        · exact CEvent.noConfusion hm3
        · cases hm3
  · intro sd hsd
    dsimp only [registerAgent] at hsd ⊢
    by_cases hcase : sd = sender
    · exfalso
      subst hcase
      exact hsd s.nextId nm (if role = AgentRole.agent then "Agent" else "Chat") ipfs
        (List.mem_append.mpr (Or.inr (List.mem_cons_self _ _)))
    · rw [if_neg hcase]
      refine h4 sd ?_
      intro aid2 nm2 rl2 ih2 hmem
      exact hsd aid2 nm2 rl2 ih2 (List.mem_append.mpr (Or.inl hmem))

/-- sendMessageToAgent preserves the contract invariants. -/
theorem send_inv (s s2 : AState) (sender agentId : Nat) (message : String)
    (h : ContractInv s) (hstep : sendMessageToAgent sender agentId message s =
      Except.ok ((), s2)) : ContractInv s2 := by
  obtain ⟨h1, h2, h3, h4⟩ := h
  simp only [sendMessageToAgent] at hstep
  split at hstep
  · cases hstep
    refine ⟨h1, h2, ?_, ?_⟩
    · intro a r
      dsimp only
      rw [h3 a r]
      constructor
      · rintro ⟨p, c, hm⟩
        exact ⟨p, c, List.mem_append.mpr (Or.inl hm)⟩
      · rintro ⟨p, c, hm⟩
        rcases List.mem_append.mp hm with hm2 | hm2
        · exact ⟨p, c, hm2⟩
        · rcases List.mem_cons.mp hm2 with hm3 | hm3
          · exact CEvent.noConfusion hm3
          · cases hm3
    · intro sd hsd
      dsimp only at hsd ⊢
      refine h4 sd ?_
      intro aid2 nm2 rl2 ih2 hmem
      exact hsd aid2 nm2 rl2 ih2 (List.mem_append.mpr (Or.inl hmem))
  · cases hstep

/-- respondToAgent preserves the contract invariants. -/
theorem respond_inv (s s2 : AState) (sender messageId receiverAgentId : Nat)
    (response : String) (h : ContractInv s)
    (hstep : respondToAgent sender messageId receiverAgentId response s =
      Except.ok ((), s2)) : ContractInv s2 := by
  obtain ⟨h1, h2, h3, h4⟩ := h
  simp only [respondToAgent] at hstep
  split at hstep
  · cases hstep
    refine ⟨h1, h2, ?_, ?_⟩
    · intro a r
      dsimp only
      rw [h3 a r]
      constructor
      · rintro ⟨p, c, hm⟩
        exact ⟨p, c, List.mem_append.mpr (Or.inl hm)⟩
      · rintro ⟨p, c, hm⟩
        rcases List.mem_append.mp hm with hm2 | hm2
        · exact ⟨p, c, hm2⟩
        · rcases List.mem_cons.mp hm2 with hm3 | hm3
          · exact CEvent.noConfusion hm3
          · cases hm3
    · intro sd hsd
      dsimp only at hsd ⊢
      refine h4 sd ?_
      intro aid2 nm2 rl2 ih2 hmem
      exact hsd aid2 nm2 rl2 ih2 (List.mem_append.mpr (Or.inl hmem))
  · cases hstep

/-- rateAgent preserves the contract invariants. -/
theorem rate_inv (s s2 : AState) (sender agentId : Nat) (positive : Bool)
    (comment : String) (h : ContractInv s)
    (hstep : rateAgent sender agentId positive comment s = Except.ok ((), s2)) :
    ContractInv s2 := by
  obtain ⟨h1, h2, h3, h4⟩ := h
  simp only [rateAgent] at hstep
  split at hstep
  · cases hstep
  split at hstep
  · cases hstep
  split at hstep
  · cases hstep
  split at hstep
  · cases hstep
  rename_i hrater0 hfound hself hnew
  have hfound2 : agentId < s.nextId := by omega
  cases hstep
  refine ⟨?_, ?_, ?_, ?_⟩
  · intro aid hlt
    dsimp only at hlt ⊢
    by_cases hcase : aid = agentId
    · subst hcase
      rw [if_pos rfl]
      obtain ⟨hp, _, _⟩ := h1 aid hfound2
      refine ⟨?_, ?_, ?_⟩
      · cases positive <;> simp <;> omega
      · intro h0
        exact absurd h0 (Nat.succ_ne_zero _)
      · intro _
        rfl
    · rw [if_neg hcase]
      exact h1 aid hlt
  · intro a r hr
    dsimp only at hr ⊢
    by_cases hcase : a = agentId ∧ r = s.agentIds sender
    · obtain ⟨ha, hr2⟩ := hcase
      subst ha
      subst hr2
      exact ⟨hrater0, hfound2, hself⟩
    · rw [if_neg hcase] at hr
      obtain ⟨x, y, z⟩ := h2 a r hr
      exact ⟨x, y, z⟩
  · intro a r
    dsimp only
    by_cases hcase : a = agentId ∧ r = s.agentIds sender
    · obtain ⟨ha, hr2⟩ := hcase
      subst ha
      subst hr2
      rw [if_pos ⟨rfl, rfl⟩]
      constructor
      · intro _
        exact ⟨positive, comment,
          List.mem_append.mpr (Or.inr (List.mem_cons_self _ _))⟩
      · intro _
        rfl
    · rw [if_neg hcase]
      rw [h3 a r]
      constructor
      · rintro ⟨p, c, hm⟩
        exact ⟨p, c, List.mem_append.mpr (Or.inl hm)⟩
      · rintro ⟨p, c, hm⟩
        rcases List.mem_append.mp hm with hm2 | hm2
        · exact ⟨p, c, hm2⟩
        · rcases List.mem_cons.mp hm2 with hm3 | hm3
          · exfalso
            injection hm3 with e1 e2 e3 e4
            exact hcase ⟨e1, e2⟩
          · rcases List.mem_cons.mp hm3 with hm4 | hm4
            · exact CEvent.noConfusion hm4
            · cases hm4
  · intro sd hsd
    dsimp only at hsd ⊢
    refine h4 sd ?_
    intro aid2 nm2 rl2 ih2 hmem
    exact hsd aid2 nm2 rl2 ih2 (List.mem_append.mpr (Or.inl hmem))

/-- Every reachable contract state satisfies the contract invariants. -/
theorem reachable_contractInv (s : AState) (h : Reachable s) : ContractInv s := by
  induction h with
  | init => exact initState_inv
  | register s sender nm role ipfs _ ihr => exact register_inv s sender nm role ipfs ihr
  | send s s2 sender agentId message _ hstep ihr =>
      exact send_inv s s2 sender agentId message ihr hstep
  | respond s s2 sender messageId receiverAgentId response _ hstep ihr =>
      exact respond_inv s s2 sender messageId receiverAgentId response ihr hstep
  | rate s s2 sender agentId positive comment _ hstep ihr =>
      exact rate_inv s s2 sender agentId positive comment ihr hstep

/-- state3 is reachable: three register calls from addresses 10, 11, 12. -/
theorem reachable_state3 : Reachable state3 :=
  Reachable.register _ 12 "carol" AgentRole.agent ""
    (Reachable.register _ 11 "bob" AgentRole.agent ""
      (Reachable.register _ 10 "alice" AgentRole.agent "" Reachable.init))

/-- state3r is reachable: from state3, agent 1 rates agent 2 positively. -/
theorem reachable_state3r : Reachable state3r :=
  Reachable.rate state3 state3r 11 2 true "good" reachable_state3 rfl

/-- state3m is reachable: from state3, agent 2 rates agent 0 negatively. -/
theorem reachable_state3m : Reachable state3m :=
  Reachable.rate state3 state3m 12 0 false "bad" reachable_state3 rfl

/-- state3n is reachable: from state3m, agent 2 rates agent 1 negatively. -/
theorem reachable_state3n : Reachable state3n :=
  Reachable.rate state3m state3n 12 1 false "bad" reachable_state3m rfl

/-- state1 is reachable: one register call from address 10. -/
theorem reachable_state1 : Reachable state1 :=
  Reachable.register _ 10 "alice" AgentRole.agent "" Reachable.init

/-- Claim C1, settled against the code at the failing input. After agents 0,
1 and 2 are registered from the three distinct addresses 10, 11 and 12, the
call of agent 1 rating agent 2 positively succeeds and reputation(2) becomes
(100, 1, 1); but the following call of agent 0 rating agent 2 negatively
reverts with RATER_NOT_REGISTERED even though address 10 does have an
identity binding (its AgentRegistered event is in the log): rateAgent
cannot distinguish the bound agent id 0 from the zero mapping default of an
unbound address. The final outcome reputation(2) = (50, 2, 1) claimed by the
specification and expected by the repository test suite is never reached. -/
theorem C1_agent_zero_cannot_rate :
    rateAgent 11 2 true "good" state3 = Except.ok ((), state3r) ∧
    getAgentReputation 2 state3r = Except.ok (100, 1, 1) ∧
    CEvent.agentRegistered 0 10 "alice" "Agent" "" ∈ state3.events ∧
    rateAgent 10 2 false "bad" state3r = Except.error Rerr.raterNotRegistered := by
  refine ⟨rfl, rfl, by decide, rfl⟩

/-- Claim C2, settled against the code at the failing input. The agent
registered first gets id 0, and a self-rate call submitted from its own
address reverts with RATER_NOT_REGISTERED, not with CANNOT_RATE_SELF as the
claim (and the repository test testCannotRateSelf) requires; for an agent
with a nonzero id the same call does revert with CANNOT_RATE_SELF. -/
theorem C2_self_rate_agent_zero :
    (registerAgent 10 "alice" AgentRole.agent "" initState).1 = 0 ∧
    rateAgent 10 0 true "self" state1 = Except.error Rerr.raterNotRegistered ∧
    rateAgent 11 1 true "self" state3 = Except.error Rerr.cannotRateSelf := by
  refine ⟨rfl, rfl, rfl⟩

/-- Claim C3: in every reachable state, every registered agent has trust
score in [0, 100]; the score equals positiveRatings * 100 / totalInteractions
(integer division) whenever totalInteractions is positive, and equals the
initialization value 100 whenever totalInteractions is zero. Preservation by
register, send, respond and rate is the induction over Reachable inside
reachable_contractInv. -/
theorem C3_trustScore_invariant (s : AState) (h : Reachable s) (aid : Nat)
    (hlt : aid < s.nextId) :
    (s.agents aid).trustScore ≤ 100 ∧
    (0 < (s.agents aid).totalInteractions →
      (s.agents aid).trustScore =
        (s.agents aid).positiveRatings * 100 / (s.agents aid).totalInteractions) ∧
    ((s.agents aid).totalInteractions = 0 → (s.agents aid).trustScore = 100) := by
  obtain ⟨h1, _, _, _⟩ := reachable_contractInv s h
  obtain ⟨hp, hz, hf⟩ := h1 aid hlt
  refine ⟨?_, hf, hz⟩
  rcases Nat.eq_zero_or_pos (s.agents aid).totalInteractions with hT | hT
  · rw [hz hT]
  · rw [hf hT]
    exact trust_div_le_100 _ _ hp hT

/-- Witness for claim C3 at the reachable state state3r and agent id 2. -/
theorem C3_trustScore_invariant_witness :
    (state3r.agents 2).trustScore ≤ 100 ∧
    (0 < (state3r.agents 2).totalInteractions →
      (state3r.agents 2).trustScore =
        (state3r.agents 2).positiveRatings * 100 / (state3r.agents 2).totalInteractions) ∧
    ((state3r.agents 2).totalInteractions = 0 → (state3r.agents 2).trustScore = 100) :=
  C3_trustScore_invariant state3r reachable_state3r 2 (by decide)

/-- Claim C5: in any reachable state that already stores a rating by rater r
of target t, a further rate call resolving to the same (t, r) pair fails
with ALREADY_RATED, and the storage after the call is the unchanged one, so
the counters, the trust score and the stored rating value of t are intact. -/
theorem C5_already_rated (s : AState) (h : Reachable s) (sender t r : Nat)
    (positive : Bool) (comment : String) (hbind : s.agentIds sender = r)
    (hstored : s.hasRated t r = true) :
    rateAgent sender t positive comment s = Except.error Rerr.alreadyRated ∧
    rateCall sender t positive comment s = s := by
  obtain ⟨_, h2, _, _⟩ := reachable_contractInv s h
  obtain ⟨hr0, hlt, hne⟩ := h2 t r hstored
  have heq : rateAgent sender t positive comment s = Except.error Rerr.alreadyRated := by
    simp only [rateAgent, hbind]
    rw [if_neg hr0]
    rw [if_neg (not_not_intro hlt)]
    rw [if_neg hne]
    rw [if_pos hstored]
  refine ⟨heq, ?_⟩
  simp only [rateCall, heq]

/-- Witness for claim C5: in state3r the rating of target 2 by rater 1 is
stored, and a repeated call from address 11 fails with ALREADY_RATED. -/
theorem C5_already_rated_witness :
    rateAgent 11 2 false "again" state3r = Except.error Rerr.alreadyRated ∧
    rateCall 11 2 false "again" state3r = state3r :=
  C5_already_rated state3r reachable_state3r 11 2 1 false "again" (by decide) (by decide)

/-- Claim C6: registerAgent always succeeds (it is a total function, for any
string inputs including empty strings), returns the countAgents value
observed before the call, makes countAgents exactly one larger, and stores
the new agent with trust score 100, zero interactions and zero positive
ratings. -/
theorem C6_register_spec (s : AState) (sender : Nat) (nm ipfs : String)
    (role : AgentRole) :
    (registerAgent sender nm role ipfs s).1 = countAgents s ∧
    countAgents (registerAgent sender nm role ipfs s).2 = countAgents s + 1 ∧
    (registerAgent sender nm role ipfs s).2.agents (countAgents s) =
      { id := countAgents s, name := nm, role := role, ipfsHash := ipfs,
        trustScore := 100, totalInteractions := 0, positiveRatings := 0 } := by
  refine ⟨rfl, rfl, ?_⟩
  dsimp only [registerAgent, countAgents]
  rw [if_pos rfl]

/-- Claim C7: sendMessageToAgent fails with AGENT_NOT_FOUND exactly when the
receiver id was never assigned (receiverAgentId is at least nextId), and
otherwise succeeds and emits MessageSent with the sender id resolved from
the identity binding of the submitting address; a failed call leaves the
storage unchanged (the error branch carries no state). In every reachable
state the resolution yields 0 for an address that never registered. -/
theorem C7_send_spec (s : AState) (sender receiverAgentId : Nat) (body : String) :
    sendMessageToAgent sender receiverAgentId body s =
      (if receiverAgentId < s.nextId then
        Except.ok ((),
          { s with
            messageIdCounter := s.messageIdCounter + 1
            events := s.events ++
              [CEvent.messageSent s.messageIdCounter (s.agentIds sender)
                receiverAgentId body] })
      else Except.error Rerr.agentNotFound) ∧
    (Reachable s →
      (∀ aid nm rl ih, CEvent.agentRegistered aid sender nm rl ih ∉ s.events) →
      s.agentIds sender = 0) := by
  constructor
  · rfl
  · intro h hub
    exact (reachable_contractInv s h).2.2.2 sender hub

/-- Witness for claim C7: on the fresh deployment a send to the unassigned
id 5 from the unbound address 99 fails with AGENT_NOT_FOUND, and address 99
resolves to 0. -/
theorem C7_send_spec_witness :
    sendMessageToAgent 99 5 "hello" initState = Except.error Rerr.agentNotFound ∧
    initState.agentIds 99 = 0 := by
  refine ⟨?_, (C7_send_spec initState 99 5 "hello").2 Reachable.init ?_⟩
  · have h := (C7_send_spec initState 99 5 "hello").1
    simpa using h
  · intro aid nm rl ih hmem
    cases hmem

/-- Claim C9: hasAgentRated is a bare mapping read, total for every pair of
ids (no existence check on either id, so never-registered ids are allowed),
and in every reachable state it returns false exactly when no rating has
been stored for the pair, i.e. when no AgentRated event with that
(agentId, raterAgentId) pair was ever emitted. -/
theorem C9_hasAgentRated_total (s : AState) (h : Reachable s)
    (agentId raterAgentId : Nat) :
    hasAgentRated agentId raterAgentId s = false ↔
      ∀ positive comment,
        CEvent.agentRated agentId raterAgentId positive comment ∉ s.events := by
  obtain ⟨_, _, h3, _⟩ := reachable_contractInv s h
  have h32 := h3 agentId raterAgentId
  constructor
  · intro hfalse p c hmem
    have ht := h32.mpr ⟨p, c, hmem⟩
    simp only [hasAgentRated] at hfalse
    rw [ht] at hfalse
    exact Bool.noConfusion hfalse
  · intro hnone
    simp only [hasAgentRated]
    cases hb : s.hasRated agentId raterAgentId
    · rfl
    · obtain ⟨p, c, hmem⟩ := h32.mp hb
      exact absurd hmem (hnone p c)

/-- Witness for claim C9 at the reachable state state3r and the never
registered ids 7 and 9. -/
theorem C9_hasAgentRated_total_witness :
    hasAgentRated 7 9 state3r = false ↔
      ∀ positive comment,
        CEvent.agentRated 7 9 positive comment ∉ state3r.events :=
  C9_hasAgentRated_total state3r reachable_state3r 7 9

/-- getD of a set at the written position. -/
theorem getD_set_self (l : List Agent) (q : Nat) (a d : Agent) (h : q < l.length) :
    (l.set q a).getD q d = a := by
  rw [List.getD_eq_getElem?_getD, List.getElem?_set_self h, Option.getD_some]

/-- getD of a set at a different position. -/
theorem getD_set_ne (l : List Agent) (q p : Nat) (a d : Agent) (h : q ≠ p) :
    (l.set q a).getD p d = l.getD p d := by
  rw [List.getD_eq_getElem?_getD, List.getElem?_set_ne h, ← List.getD_eq_getElem?_getD]

/-- Writing x into position k and moving the old entry of position k to the
front is a permutation. -/
theorem set_cons_perm (x d : Agent) : ∀ (t : List Agent) (k : Nat), k < t.length →
    List.Perm (t.getD k d :: t.set k x) (x :: t)
  | [], k, h => absurd h (Nat.not_lt_zero k)
  | y :: u, 0, _ => List.Perm.swap x y u
  | y :: u, k + 1, h => by
      show List.Perm (u.getD k d :: y :: u.set k x) (x :: y :: u)
      have ih := set_cons_perm x d u k (Nat.lt_of_succ_lt_succ h)
      exact ((List.Perm.swap y (u.getD k d) (u.set k x)).trans
        (List.Perm.cons y ih)).trans (List.Perm.swap x y u)

/-- The two writes of the bubble-sort swap produce a permutation of the
original list. -/
theorem swap_perm (d : Agent) : ∀ (l : List Agent) (i j : Nat), i < j → j < l.length →
    List.Perm ((l.set i (l.getD j d)).set j (l.getD i d)) l
  | [], _, _, _, hj => absurd hj (Nat.not_lt_zero _)
  | _ :: _, _, 0, hij, _ => absurd hij (Nat.not_lt_zero _)
  | y :: u, 0, j + 1, _, hj => by
      show List.Perm (u.getD j d :: u.set j y) (y :: u)
      exact set_cons_perm y d u j (Nat.lt_of_succ_lt_succ hj)
  | y :: u, i + 1, j + 1, hij, hj => by
      show List.Perm (y :: (u.set i (u.getD j d)).set j (u.getD i d)) (y :: u)
      exact List.Perm.cons y
        (swap_perm d u i j (Nat.lt_of_succ_lt_succ hij) (Nat.lt_of_succ_lt_succ hj))

/-- One inner-loop comparison keeps the length. -/
theorem innerStep_length (i : Nat) (l : List Agent) (j : Nat) :
    (innerStep i l j).length = l.length := by
  unfold innerStep
  split <;> simp

/-- One inner-loop comparison permutes the list. -/
theorem innerStep_perm (i : Nat) (l : List Agent) (j : Nat) (hij : i < j)
    (hj : j < l.length) : List.Perm (innerStep i l j) l := by
  unfold innerStep
  split
  · exact swap_perm default l i j hij hj
  · exact List.Perm.refl l

/-- One inner-loop comparison touches only positions i and j. -/
theorem innerStep_getElem_ne (i : Nat) (l : List Agent) (j p : Nat) (hpi : p ≠ i)
    (hpj : p ≠ j) : (innerStep i l j)[p]? = l[p]? := by
  unfold innerStep
  split
  · rw [List.getElem?_set_ne (Ne.symm hpj), List.getElem?_set_ne (Ne.symm hpi)]
  · rfl

/-- One inner-loop comparison never decreases the trust score at position i. -/
theorem innerStep_mono_i (i : Nat) (l : List Agent) (j : Nat) (hij : i < j)
    (hj : j < l.length) :
    (l.getD i default).trustScore ≤ ((innerStep i l j).getD i default).trustScore := by
  unfold innerStep
  split
  · rename_i hlt
    have hi : i < l.length := Nat.lt_trans hij hj
    rw [getD_set_ne _ j i _ _ (Nat.ne_of_gt hij), getD_set_self _ i _ _ hi]
    exact Nat.le_of_lt hlt
  · exact Nat.le_refl _

/-- After one inner-loop comparison the trust score at position j does not
exceed the one at position i. -/
theorem innerStep_le_i (i : Nat) (l : List Agent) (j : Nat) (hij : i < j)
    (hj : j < l.length) :
    ((innerStep i l j).getD j default).trustScore ≤
      ((innerStep i l j).getD i default).trustScore := by
  unfold innerStep
  split
  · rename_i hlt
    have hi : i < l.length := Nat.lt_trans hij hj
    rw [getD_set_self _ j _ _ (by simpa using hj)]
    rw [getD_set_ne _ j i _ _ (Nat.ne_of_gt hij), getD_set_self _ i _ _ hi]
    exact Nat.le_of_lt hlt
  · rename_i hge
    exact Nat.le_of_not_lt hge

/-- Specification of the inner loop of the sort, folded over any list J of
column indices that all lie strictly between i and the length: the result
keeps the length, is a permutation, leaves every position outside i and J
untouched, never decreases position i, and ends with position i dominating
every position of J. -/
theorem innerFold_spec (i : Nat) (J : List Nat) : ∀ (l : List Agent),
    (∀ j ∈ J, i < j ∧ j < l.length) → i < l.length →
    ((J.foldl (innerStep i) l).length = l.length ∧
      List.Perm (J.foldl (innerStep i) l) l) ∧
    (∀ p, p ≠ i → p ∉ J → (J.foldl (innerStep i) l)[p]? = l[p]?) ∧
    ((l.getD i default).trustScore ≤
      ((J.foldl (innerStep i) l).getD i default).trustScore) ∧
    (∀ j ∈ J, ((J.foldl (innerStep i) l).getD j default).trustScore ≤
      ((J.foldl (innerStep i) l).getD i default).trustScore) := by
  induction J with
  | nil =>
      intro l _ _
      exact ⟨⟨rfl, List.Perm.refl l⟩, fun _ _ _ => rfl, Nat.le_refl _,
        fun j hj => absurd hj (List.not_mem_nil j)⟩
  | cons j J ih =>
      intro l hJ hi
      have hj := hJ j (List.mem_cons_self j J)
      have A1 : (innerStep i l j).length = l.length := innerStep_length i l j
      have A2 : List.Perm (innerStep i l j) l := innerStep_perm i l j hj.1 hj.2
      have A4 := innerStep_mono_i i l j hj.1 hj.2
      have A5 := innerStep_le_i i l j hj.1 hj.2
      have hJ2 : ∀ j2 ∈ J, i < j2 ∧ j2 < (innerStep i l j).length := by
        intro j2 hm
        obtain ⟨x, y⟩ := hJ j2 (List.mem_cons_of_mem j hm)
        exact ⟨x, A1 ▸ y⟩
      have hi2 : i < (innerStep i l j).length := A1 ▸ hi
      obtain ⟨⟨B1, B2⟩, B3, B4, B5⟩ := ih (innerStep i l j) hJ2 hi2
      simp only [List.foldl_cons]
      refine ⟨⟨B1.trans A1, B2.trans A2⟩, ?_, Nat.le_trans A4 B4, ?_⟩
      · intro p hpi hpJ
        have hpj : p ≠ j := fun h => hpJ (h ▸ List.mem_cons_self j J)
        have hpJ2 : p ∉ J := fun hm => hpJ (List.mem_cons_of_mem j hm)
        rw [B3 p hpi hpJ2, innerStep_getElem_ne i l j p hpi hpj]
      · intro j2 hj2
        rcases List.mem_cons.mp hj2 with hcase | hm
        · subst hcase
          by_cases hjJ : j2 ∈ J
          · exact B5 j2 hjJ
          · have hne : j2 ≠ i := Nat.ne_of_gt hj.1
            have hgd : (J.foldl (innerStep i) (innerStep i l j2)).getD j2 default =
                (innerStep i l j2).getD j2 default := by
              rw [List.getD_eq_getElem?_getD, B3 j2 hne hjJ, ← List.getD_eq_getElem?_getD]
            rw [hgd]
            exact Nat.le_trans A5 B4
        · exact B5 j2 hm

/-- Two permuted lists that agree on their first m entries have permuted
remainders. -/
theorem drop_perm_of_take_eq (m : Nat) (l1 l2 : List Agent)
    (hperm : List.Perm l1 l2) (htake : l1.take m = l2.take m) :
    List.Perm (l1.drop m) (l2.drop m) := by
  have h : List.Perm (l1.take m ++ l1.drop m) (l1.take m ++ l2.drop m) := by
    rw [List.take_append_drop, htake, List.take_append_drop]
    exact hperm
  exact (List.perm_append_left_iff (l1.take m)).mp h

/-- Lists that agree pointwise below m have equal m-element head slices. -/
theorem take_eq_of_getElem (m : Nat) (l1 l2 : List Agent)
    (h : ∀ p, p < m → l1[p]? = l2[p]?) : l1.take m = l2.take m := by
  apply List.ext_getElem?
  intro n
  by_cases hn : n < m
  · rw [List.getElem?_take_of_lt hn, List.getElem?_take_of_lt hn, h n hn]
  · rw [List.getElem?_take_eq_none (Nat.le_of_not_lt hn),
      List.getElem?_take_eq_none (Nat.le_of_not_lt hn)]

/-- Specification of the outer loop of the sort from column k on: assuming
the first k positions already dominate all later ones, the remaining passes
keep the length, permute the list, and establish domination everywhere. -/
theorem outerFold_spec (n : Nat) : ∀ (m k : Nat) (l : List Agent), l.length = n →
    k + m = n → HeadDom k l →
    ((List.range' k m).foldl
        (fun acc i2 => (List.range' (i2 + 1) (n - (i2 + 1))).foldl (innerStep i2) acc)
        l).length = n ∧
    List.Perm ((List.range' k m).foldl
        (fun acc i2 => (List.range' (i2 + 1) (n - (i2 + 1))).foldl (innerStep i2) acc)
        l) l ∧
    HeadDom n ((List.range' k m).foldl
        (fun acc i2 => (List.range' (i2 + 1) (n - (i2 + 1))).foldl (innerStep i2) acc)
        l) := by
  intro m
  induction m with
  | zero =>
      intro k l hlen hkm hdom
      have hk : k = n := by omega
      subst hk
      exact ⟨hlen, List.Perm.refl l, hdom⟩
  | succ m ih =>
      intro k l hlen hkm hdom
      rw [List.range'_succ]
      simp only [List.foldl_cons]
      have hk : k < n := by omega
      have hJ : ∀ j ∈ List.range' (k + 1) (n - (k + 1)), k < j ∧ j < l.length := by
        intro j hm
        rw [List.mem_range'_1] at hm
        constructor
        · omega
        · rw [hlen]; omega
      have hkl : k < l.length := by rw [hlen]; exact hk
      obtain ⟨⟨B1, B2⟩, B3, B4, B5⟩ :=
        innerFold_spec k (List.range' (k + 1) (n - (k + 1))) l hJ hkl
      have hlen1 : ((List.range' (k + 1) (n - (k + 1))).foldl (innerStep k) l).length = n :=
        B1.trans hlen
      have hdom1 : HeadDom (k + 1)
          ((List.range' (k + 1) (n - (k + 1))).foldl (innerStep k) l) := by
        intro p hp x hx
        rcases Nat.lt_or_ge p k with hpk | hpk
        · have huntouched : ∀ q, q < p + 1 →
              ((List.range' (k + 1) (n - (k + 1))).foldl (innerStep k) l)[q]? = l[q]? := by
            intro q hq
            refine B3 q (by omega) ?_
            intro hqm
            rw [List.mem_range'_1] at hqm
            omega
          have htake := take_eq_of_getElem (p + 1) _ l huntouched
          have hdropPerm := drop_perm_of_take_eq (p + 1) _ l B2 htake
          have hxl : x ∈ l.drop (p + 1) := hdropPerm.mem_iff.mp hx
          have hgd :
              ((List.range' (k + 1) (n - (k + 1))).foldl (innerStep k) l).getD p default =
              l.getD p default := by
            rw [List.getD_eq_getElem?_getD, huntouched p (Nat.lt_succ_self p),
              ← List.getD_eq_getElem?_getD]
          rw [hgd]
          exact hdom p hpk x hxl
        · have hpk2 : p = k := by omega
          subst hpk2
          rw [List.mem_iff_getElem?] at hx
          obtain ⟨q, hq⟩ := hx
          rw [List.getElem?_drop] at hq
          have hidx : p + 1 + q < n := by
            by_contra hge
            rw [List.getElem?_eq_none (by rw [hlen1]; omega)] at hq
            exact Option.noConfusion hq
          have hmem : p + 1 + q ∈ List.range' (p + 1) (n - (p + 1)) := by
            rw [List.mem_range'_1]
            omega
          have hle := B5 (p + 1 + q) hmem
          have hxval : ((List.range' (p + 1) (n - (p + 1))).foldl (innerStep p) l).getD
              (p + 1 + q) default = x := by
            rw [List.getD_eq_getElem?_getD, hq, Option.getD_some]
          rw [← hxval]
          exact hle
      obtain ⟨C1, C2, C3⟩ := ih (k + 1)
        ((List.range' (k + 1) (n - (k + 1))).foldl (innerStep k) l) hlen1 (by omega) hdom1
      exact ⟨C1, C2.trans B2, C3⟩

/-- topSort permutes its input and establishes full domination. -/
theorem topSort_spec (n : Nat) (l : List Agent) (hlen : l.length = n) :
    List.Perm (topSort n l) l ∧ HeadDom n (topSort n l) := by
  have h0 : HeadDom 0 l := fun p hp => absurd hp (Nat.not_lt_zero p)
  have h := outerFold_spec n n 0 l hlen (by omega) h0
  unfold topSort
  rw [List.range_eq_range']
  exact ⟨h.2.1, h.2.2⟩

/-- Full domination of a list yields pairwise descending trust scores. -/
theorem pairwise_of_headDom (n : Nat) (l : List Agent) (hlen : l.length = n)
    (h : HeadDom n l) : l.Pairwise (fun a b => b.trustScore ≤ a.trustScore) := by
  rw [List.pairwise_iff_getElem]
  intro a b ha hb hab
  have hidx : a + 1 + (b - (a + 1)) = b := by omega
  have hmem : l[b] ∈ l.drop (a + 1) := by
    rw [List.mem_iff_getElem?]
    exact ⟨b - (a + 1), by rw [List.getElem?_drop, hidx, List.getElem?_eq_getElem hb]⟩
  have hba := h a (by omega) l[b] hmem
  rwa [List.getD_eq_getElem?_getD, List.getElem?_eq_getElem ha, Option.getD_some] at hba

/-- Claim C4 (amended): in every state, getTopRatedAgents returns a
permutation of listAgents ordered by descending trust score; the order of
agents with equal trust score is whatever the exchange sort produces, which
is not ascending id in general. -/
theorem C4_topRated_sorted_perm (s : AState) :
    List.Perm (getTopRatedAgents s) (listAgents s) ∧
    (getTopRatedAgents s).Pairwise (fun a b => b.trustScore ≤ a.trustScore) := by
  have hlen : ((List.range s.nextId).map s.agents).length = s.nextId := by simp
  obtain ⟨hperm, hdom⟩ := topSort_spec s.nextId ((List.range s.nextId).map s.agents) hlen
  refine ⟨hperm, ?_⟩
  apply pairwise_of_headDom s.nextId
  · simp only [getTopRatedAgents]
    rw [hperm.length_eq, hlen]
  · exact hdom

/-- Claim C4 counterexample: in the reachable state state3n agents 0 and 1
share trust score 0 and agent 2 has trust score 100, yet getTopRatedAgents
returns the ids in the order [2, 1, 0]: the two tied agents appear in
descending id order, refuting the claimed ascending-id (registration order)
tie-break; the exchange sort of the contract is not stable. -/
theorem C4_tie_order_counterexample :
    Reachable state3n ∧
    (listAgents state3n).map (fun a => a.trustScore) = [0, 0, 100] ∧
    (getTopRatedAgents state3n).map (fun a => a.id) = [2, 1, 0] ∧
    ((getTopRatedAgents state3n).getD 1 default).trustScore =
      ((getTopRatedAgents state3n).getD 2 default).trustScore ∧
    ((getTopRatedAgents state3n).getD 2 default).id <
      ((getTopRatedAgents state3n).getD 1 default).id :=
  ⟨reachable_state3n, by decide, by decide, by decide, by decide⟩

/-- Claim C8 counterexample: running the concrete overlap schedule from a
fresh monitor world, the second timer tick fires while the first pollEvents
invocation is still suspended at its getLogs await; right after that tick
two polls are in flight over the same lastProcessedBlock cursor, and at the
end of the run the single committed log entry of block 1 has been delivered
to subscribers twice. -/
theorem C8_overlap_counterexample :
    (Monitor.mrun Monitor.overlapPrefix Monitor.mworld0).tasks.length = 2 ∧
    (Monitor.mrun Monitor.overlapSchedule Monitor.mworld0).delivered =
      [⟨1, 7⟩, ⟨1, 7⟩] :=
  ⟨by decide, by decide⟩

/-- Claim C8 (amended): the interval callback installed by startPolling has
no in-flight guard, so a timer tick always starts one more pollEvents
invocation, even while a previous invocation is still outstanding; ticks are
never dropped, and overlapping polls over the same cursor are possible (the
counterexample shows they can deliver the same event twice). Only a
serialized poll - one that runs to completion before the next tick - is
safe: it delivers nothing when the tip has not advanced, and otherwise
delivers exactly the committed logs of the range (cursor, tip], once each
and in log order, then advances the cursor to the tip. -/
theorem C8_tick_never_dropped (w : Monitor.MWorld) (hw : w.tasks = []) :
    (Monitor.tickStep w).tasks.length = w.tasks.length + 1 ∧
    (w.chain.tip ≤ w.lastProcessedBlock →
      (Monitor.mrun Monitor.serialSchedule w).delivered = w.delivered ∧
      (Monitor.mrun Monitor.serialSchedule w).lastProcessedBlock =
        w.lastProcessedBlock) ∧
    (w.lastProcessedBlock < w.chain.tip →
      (Monitor.mrun Monitor.serialSchedule w).delivered =
        w.delivered ++
          Monitor.logsInRange w.chain (w.lastProcessedBlock + 1) w.chain.tip ∧
      (Monitor.mrun Monitor.serialSchedule w).lastProcessedBlock = w.chain.tip) := by
  obtain ⟨c, lb, ts, dv⟩ := w
  simp only at hw
  subst hw
  refine ⟨by simp [Monitor.tickStep], ?_, ?_⟩
  · intro hle
    simp only [Monitor.mrun, Monitor.serialSchedule, List.foldl_cons, List.foldl_nil,
      Monitor.mstep, Monitor.tickStep, Monitor.taskStep]
    simp only [List.nil_append, List.get?]
    rw [if_pos hle]
    simp
  · intro hgt
    simp only [Monitor.mrun, Monitor.serialSchedule, List.foldl_cons, List.foldl_nil,
      Monitor.mstep, Monitor.tickStep, Monitor.taskStep]
    simp only [List.nil_append, List.get?]
    rw [if_neg (Nat.not_le_of_lt hgt)]
    simp

/-- Witness for the amended claim C8: on the world with one committed log
entry in block 1 and cursor 0, a serialized poll delivers exactly that
entry and moves the cursor to 1. -/
theorem C8_tick_never_dropped_witness :
    (Monitor.tickStep (Monitor.envStep 7 Monitor.mworld0)).tasks.length =
      (Monitor.envStep 7 Monitor.mworld0).tasks.length + 1 ∧
    (Monitor.mrun Monitor.serialSchedule (Monitor.envStep 7 Monitor.mworld0)).delivered =
      [⟨1, 7⟩] ∧
    (Monitor.mrun Monitor.serialSchedule
      (Monitor.envStep 7 Monitor.mworld0)).lastProcessedBlock = 1 := by
  have h := C8_tick_never_dropped (Monitor.envStep 7 Monitor.mworld0) rfl
  obtain ⟨h1, _, h3⟩ := h
  obtain ⟨h3a, h3b⟩ := h3 (by decide)
  refine ⟨h1, ?_, ?_⟩
  · rw [h3a]
    decide
  · rw [h3b]
    decide

/-- Claim C10: in getHistoricalEvents a filter value 0 for messageId,
senderAgentId or receiverAgentId is falsy in the truthiness guard of
matchesMessageFilter, so it behaves exactly like an absent filter: the
matcher and the MessageSent and MessageResponded result lists with the field
set to 0 coincide with those with the field absent, so the query returns
these events regardless of the value of that field. -/
theorem C10_zero_filter_like_absent (a : Historical.MsgArgs)
    (logs : List Historical.ParsedLog) (o : Historical.EventFilterOptions) :
    (Historical.matchesMessageFilter a { o with messageId := some 0 } =
      Historical.matchesMessageFilter a { o with messageId := none }) ∧
    (Historical.matchesMessageFilter a { o with senderAgentId := some 0 } =
      Historical.matchesMessageFilter a { o with senderAgentId := none }) ∧
    (Historical.matchesMessageFilter a { o with receiverAgentId := some 0 } =
      Historical.matchesMessageFilter a { o with receiverAgentId := none }) ∧
    (Historical.historicalMessageSent logs { o with messageId := some 0 } =
      Historical.historicalMessageSent logs { o with messageId := none }) ∧
    (Historical.historicalMessageSent logs { o with senderAgentId := some 0 } =
      Historical.historicalMessageSent logs { o with senderAgentId := none }) ∧
    (Historical.historicalMessageSent logs { o with receiverAgentId := some 0 } =
      Historical.historicalMessageSent logs { o with receiverAgentId := none }) ∧
    (Historical.historicalMessageResponded logs { o with messageId := some 0 } =
      Historical.historicalMessageResponded logs { o with messageId := none }) ∧
    (Historical.historicalMessageResponded logs { o with senderAgentId := some 0 } =
      Historical.historicalMessageResponded logs { o with senderAgentId := none }) ∧
    (Historical.historicalMessageResponded logs { o with receiverAgentId := some 0 } =
      Historical.historicalMessageResponded logs { o with receiverAgentId := none }) :=
  ⟨rfl, rfl, rfl, rfl, rfl, rfl, rfl, rfl, rfl⟩

end AgentsToolkit
